import Mathlib

/-!
Verification of the M113 reglementsbibliotek core subsystems: the client-side
lexical search engine and context extractor (src/js/app.js, class ManualViewer),
the cache controller (src/sw.js) and the offline coordinator
(src/js/offline-manager.js, class OfflineManager).

JavaScript strings are modelled as `List Char` (all characters involved are in
the Basic Multilingual Plane, so one `Char` corresponds to one UTF-16 code
unit). JavaScript `Set` objects are modelled as duplicate-free lists maintained
by insert-if-absent; `Map`-like plain objects are modelled as association
lists.
-/

/-- Lowercasing as performed by `String.prototype.toLowerCase`, restricted to
the alphabets the tokenizers distinguish (ASCII letters and the Danish letters
Æ, Ø, Å). Other characters are unaffected by the tokenizers and substring
tests in scope, so the restriction is faithful. -/
def jsToLower (c : Char) : Char :=
  if 'A' ≤ c ∧ c ≤ 'Z' then Char.ofNat (c.toNat + 32)
  else if c = 'Æ' then 'æ'
  else if c = 'Ø' then 'ø'
  else if c = 'Å' then 'å'
  else c

/-- The character class of the search tokenizer regex
`/[a-zA-ZæøåÆØÅ]+/g` (app.js line 431). -/
def isDanishLetter (c : Char) : Bool :=
  ('a' ≤ c ∧ c ≤ 'z') ∨ ('A' ≤ c ∧ c ≤ 'Z') ∨
  c = 'æ' ∨ c = 'ø' ∨ c = 'å' ∨ c = 'Æ' ∨ c = 'Ø' ∨ c = 'Å'

/-- The character class of the regex `/\w+/g` used by
`getSearchContext` (app.js line 522): ASCII letters, digits and underscore. -/
def isWordChar (c : Char) : Bool :=
  ('a' ≤ c ∧ c ≤ 'z') ∨ ('A' ≤ c ∧ c ≤ 'Z') ∨ ('0' ≤ c ∧ c ≤ '9') ∨ c = '_'

/-- Boolean test that `p` is a prefix of `s` (the JS `String.prototype.startsWith`). -/
def pfxOf : List Char → List Char → Bool
  | [], _ => true
  | _ :: _, [] => false
  | a :: as, b :: bs => a = b && pfxOf as bs

/-- Boolean substring test (the JS `String.prototype.includes`). -/
def containsSub (needle : List Char) : List Char → Bool
  | [] => needle.isEmpty
  | c :: t => pfxOf needle (c :: t) || containsSub needle t

/-- Auxiliary run extractor: splits a character list into the maximal runs of
characters satisfying `p`, together with a flag telling whether the first run
(if any) starts at the very front of the list. -/
def tokAux (p : Char → Bool) : List Char → List (List Char) × Bool
  | [] => ([], false)
  | c :: cs =>
    let r := tokAux p cs
    if p c then
      match r with
      | (t :: ts, true) => ((c :: t) :: ts, true)
      | (toks, _) => ([c] :: toks, true)
    else (r.1, false)

/-- Maximal runs of characters satisfying `p`: the model of
`String.prototype.match` with a one-character-class `+` regex. -/
def tokenizeRuns (p : Char → Bool) (s : List Char) : List (List Char) :=
  (tokAux p s).1

/-- Query tokenization of the search engine (app.js lines 431-432):
lowercase the query, then take the maximal runs of Danish letters. -/
def danishTokenize (q : List Char) : List (List Char) :=
  tokenizeRuns isDanishLetter (q.map jsToLower)

/-- Query tokenization of `getSearchContext` (app.js line 522):
lowercase the query, then take the maximal runs of word characters. -/
def contextTokenize (q : List Char) : List (List Char) :=
  tokenizeRuns isWordChar (q.map jsToLower)

/-- The per-(query token, index token) match weight chain of
`ManualViewer.search` (app.js lines 443-467). `none` models the `continue`
branch. The last guard `3 * iw.length ≤ 5 * qw.length` models the JS test
`queryWord.length >= indexWord.length * 0.6`: for every length below 2^50 the
double-precision product `indexWord.length * 0.6` rounds to a value whose
comparison with the integer `queryWord.length` agrees with the exact rational
comparison against 3·|iw|/5. -/
def scoreBonus (qw iw : List Char) : Option Nat :=
  if iw = qw then some 10
  else if pfxOf qw iw = true ∧ 3 ≤ qw.length then some 6
  else if pfxOf iw qw = true ∧ 3 ≤ iw.length then some 4
  else if 5 ≤ qw.length ∧ 5 ≤ iw.length ∧ containsSub qw iw = true ∧
          3 * iw.length ≤ 5 * qw.length then some 2
  else none

/-- The matching policy exactly as the specification states it (spec §4.1,
rules 1-5): first applicable rule wins, written with the library prefix and
infix order relations. -/
def specMatchWeight (qw iw : List Char) : Option Nat :=
  if qw = iw then some 10
  else if qw <+: iw ∧ 3 ≤ qw.length then some 6
  else if iw <+: qw ∧ 3 ≤ iw.length then some 4
  else if (5 ≤ qw.length ∧ 5 ≤ iw.length) ∧ qw <:+: iw ∧
          3 * iw.length ≤ 5 * qw.length then some 2
  else none

/-- One occurrence of an index word: a page identifier plus the cached text
snippet stored with the occurrence (the per-manual search index artifact,
spec §6). -/
structure Occ where
  pageId : Nat
  context : List Char
deriving DecidableEq

/-- The word index: `searchIndex.words`, an object mapping each index word to
its occurrence list, modelled as an association list in key-insertion order
(index words are non-numeric strings, so `Object.keys` preserves insertion
order). -/
structure SearchIndex where
  words : List (List Char × List Occ)
deriving DecidableEq

/-- A loaded page (`this.pages` entry); only the fields read by `search` are
modelled. `pages` is an array indexed by page id. -/
structure Page where
  chapter : List Char
  page : List Char
deriving DecidableEq

/-- Accumulated per-page match data (`pageMatches[pageId]`, app.js lines
472-487): the spread of the first contributing occurrence plus the running
score, matched-word list and exact-match count. -/
structure PageMatch where
  context : List Char
  score : Nat
  matchedWords : List (List Char)
  exactMatches : Nat
deriving DecidableEq

/-- The body of the occurrence loop (app.js lines 471-488): create the entry
for the page on first contact, then add the bonus, record the matched index
word, and count an exact match when the bonus is at least 10. -/
def bump (pm : List (Nat × PageMatch)) (occ : Occ) (iw : List Char)
    (bonus : Nat) : List (Nat × PageMatch) :=
  if pm.any (fun e => e.1 = occ.pageId) then
    pm.map (fun e =>
      if e.1 = occ.pageId then
        (e.1, { e.2 with
                score := e.2.score + bonus
                matchedWords := e.2.matchedWords ++ [iw]
                exactMatches := e.2.exactMatches + (if 10 ≤ bonus then 1 else 0) })
      else e)
  else
    pm ++ [(occ.pageId,
      { context := occ.context
        score := bonus
        matchedWords := [iw]
        exactMatches := if 10 ≤ bonus then 1 else 0 })]

/-- The nested query-word / index-word / occurrence loops of `search`
(app.js lines 436-490), producing the `pageMatches` association list in
insertion order. Query words shorter than 3 characters are skipped. -/
def pageMatchesOf (idx : SearchIndex) (qws : List (List Char)) :
    List (Nat × PageMatch) :=
  qws.foldl (fun pm qw =>
    if qw.length < 3 then pm
    else idx.words.foldl (fun pm entry =>
      match scoreBonus qw entry.1 with
      | none => pm
      | some b => entry.2.foldl (fun pm occ => bump pm occ entry.1 b) pm) pm) []

/-- A search result as assembled at app.js lines 502-508. -/
structure SearchResult where
  pageId : Nat
  context : List Char
  score : Nat
  matchedWords : List (List Char)
  exactMatches : Nat
  displayTitle : List Char
  finalScore : Nat
deriving DecidableEq

/-- Association-list lookup for the page-match map. -/
def pmLookup (pm : List (Nat × PageMatch)) (k : Nat) : Option PageMatch :=
  match pm.find? (fun e => e.1 = k) with
  | some e => some e.2
  | none => none

/-- `Object.keys(pageMatches)`: the keys are numeric strings, which
JavaScript enumerates in ascending numeric order regardless of insertion
order. -/
def pmKeys (pm : List (Nat × PageMatch)) : List Nat :=
  (pm.map Prod.fst).mergeSort (fun a b => Nat.ble a b)

/-- Placeholder for `getSearchContext`, introduced later in the development;
forward declaration via a parameter is avoided by defining the search
pipeline after the context extractor. -/
def sentinel : List Char := "Ingen kontekst tilgængelig".toList

/-- The window coverage score of `getSearchContext` (app.js lines 531-537):
one point per query word in the list (with multiplicity) contained in the
window. -/
def windowScore (win : List Char) (words : List (List Char)) : Nat :=
  words.foldl (fun sc w => if containsSub w win then sc + 1 else sc) 0

/-- The window start offsets scanned by `getSearchContext`
(`for (let i = 0; i <= text.length - 100; i += 10)`): empty when the text is
shorter than 100 characters, because the JS subtraction goes negative. -/
def winOffsets (n : Nat) : List Nat :=
  if n < 100 then [] else (List.range ((n - 100) / 10 + 1)).map (· * 10)

/-- The window of 100 characters starting at offset `i`. -/
def windowAt (textLower : List Char) (i : Nat) : List Char :=
  (textLower.drop i).take 100

/-- First pass of `getSearchContext` (app.js lines 526-543): track the window
offset with the highest coverage score, scanning offsets in increasing order
and keeping the earlier offset on ties (strict improvement required). -/
def bestWindow (textLower : List Char) (qws : List (List Char)) : Nat × Nat :=
  (winOffsets textLower.length).foldl (fun b i =>
    let s := windowScore (windowAt textLower i) qws
    if s > b.2 then (i, s) else b) (0, 0)

/-- The weak-pass hit test of `getSearchContext` (app.js lines 550-559): some
suffix of the window starting below `window.length - 2` contains the at most
3-character head of the query word. -/
def fbHit (win : List Char) (w : List Char) : Bool :=
  (List.range (win.length - 2)).any (fun j => containsSub (w.take 3) (win.drop j))

/-- Second pass of `getSearchContext` (app.js lines 546-562), run only when
the best coverage score is 0: the first offset whose window has a weak hit
for some query word, scanning windows in increasing offset order and query
words in list order. -/
def fallbackIndex (textLower : List Char) (qws : List (List Char)) : Option Nat :=
  (winOffsets textLower.length).find? (fun i => qws.any (fbHit (windowAt textLower i)))

/-- `ManualViewer.getSearchContext` (app.js lines 519-572). Empty text yields
the sentinel; otherwise the best window (by coverage, then by the weak pass)
is located, and the slice from `bestIndex - 25` (clamped at 0 by JS
`Math.max`, which Nat subtraction models) to `min (length) (bestIndex + 125)`
is returned, with ellipses marking a trimmed start or end; `sliceWithEllipses`
is that slicing step (app.js lines 564-571). -/
def sliceWithEllipses (text : List Char) (bestIndex : Nat) : List Char :=
  let start := bestIndex - 25
  let stop := min text.length (bestIndex + 125)
  let ctx := (text.drop start).take (stop - start)
  let ctx2 := if 0 < start then '.' :: '.' :: '.' :: ctx else ctx
  if stop < text.length then ctx2 ++ ['.', '.', '.'] else ctx2

def getSearchContext (text query : List Char) : List Char :=
  if text.isEmpty then sentinel
  else
    let qws := contextTokenize query
    let textLower := text.map jsToLower
    let best := bestWindow textLower qws
    let bestIndex :=
      if best.2 = 0 then
        match fallbackIndex textLower qws with
        | some i => i
        | none => best.1
      else best.1
    sliceWithEllipses text bestIndex

/-- The result-array construction of `search` (app.js lines 492-510): for each
page id in `Object.keys` order, keep it only when the page exists in the
loaded pages array and the accumulated score is at least 4; the final score
adds 5 per exact match. -/
def resultsOf (pm : List (Nat × PageMatch)) (pages : List Page)
    (query : List Char) : List SearchResult :=
  (pmKeys pm).foldl (fun rs pid =>
    match pmLookup pm pid, pages[pid]? with
    | some m, some page =>
      if 4 ≤ m.score then
        rs ++ [{ pageId := pid
                 context := getSearchContext m.context query
                 score := m.score
                 matchedWords := m.matchedWords
                 exactMatches := m.exactMatches
                 displayTitle := "Side ".toList ++ page.chapter ++ ['-'] ++ page.page
                 finalScore := m.score + m.exactMatches * 5 }]
      else rs
    | _, _ => rs) []

/-- The descending-final-score comparison of the stable JS `Array.prototype.sort`
call `(a, b) => b.finalScore - a.finalScore`. -/
def byFinalScoreDesc (a b : SearchResult) : Bool :=
  Nat.ble b.finalScore a.finalScore

/-- The intermediate sorted result list of `search` (app.js line 514). -/
def searchSorted (idx : SearchIndex) (pages : List Page) (query : List Char) :
    List SearchResult :=
  (resultsOf (pageMatchesOf idx (danishTokenize query)) pages query).mergeSort
    byFinalScoreDesc

/-- `ManualViewer.search` (app.js lines 425-517): tokenize, accumulate page
matches, build the retained result array, sort descending by final score
(stable), drop final scores below 6, and truncate to 20. -/
def search (idx : SearchIndex) (pages : List Page) (query : List Char) :
    List SearchResult :=
  ((searchSorted idx pages query).filter (fun r => 6 ≤ r.finalScore)).take 20

/-! ### Concrete data for the worked examples -/

/-- The context snippet of the specification's worked example (spec §8). -/
def exCtx : List Char := "...udstødningsrøret sidder bag motoren...".toList

/-- The index of the worked example:
`{"udstødning": [{pageId: 1, context: "...udstødningsrøret sidder bag motoren..."}]}`. -/
def exIdx : SearchIndex := ⟨[("udstødning".toList, [⟨1, exCtx⟩])]⟩

/-- A pages array in which page 1 is present. -/
def exPages : List Page := [⟨"1".toList, "01".toList⟩, ⟨"1".toList, "02".toList⟩]

/-- The query of the worked example. -/
def exQuery : List Char := "udstødningsrør".toList

/-- An index with an exact-match occurrence, used to exercise the search
pipeline on a non-empty result. -/
def exactIdx : SearchIndex := ⟨[("motor".toList, [⟨0, "bag motoren".toList⟩])]⟩

/-- A one-page pages array for `exactIdx`. -/
def exactPages : List Page := [⟨"1".toList, "01".toList⟩]

/-- The single result returned by `search exactIdx exactPages "motor"`:
weight 10, one exact match, final score 15. -/
def exactResult : SearchResult :=
  { pageId := 0
    context := "bag motoren".toList
    score := 10
    matchedWords := ["motor".toList]
    exactMatches := 1
    displayTitle := "Side 1-01".toList
    finalScore := 15 }

/-! ### Cache Controller (src/sw.js)

The Cache API state is modelled as an association list from cache name to the
list of stored entries (request key, response body), both in creation order.
Network fetches are modelled by an oracle `fetchOk` telling which URLs fetch
successfully; `Cache.addAll` is atomic in the fetch oracle (it stores nothing
when any fetch of the batch fails), but `caches.open` has already created the
cache by then, which is exactly the behaviour under scrutiny in the
invariant. -/

abbrev CacheStore := List (List Char × List (List Char × List Char))

/-- The `manual-` cache-name tag (7 characters). -/
def manualPfx : List Char := "manual-".toList

/-- The `-metadata` key suffix of the metadata entry. -/
def metadataSfx : List Char := "-metadata".toList

/-- Whether a cache of the given name exists. -/
def cacheExists (st : CacheStore) (name : List Char) : Bool :=
  st.any (fun c => c.1 = name)

/-- `caches.open`: creates an empty cache when none of that name exists. -/
def cachesOpen (st : CacheStore) (name : List Char) : CacheStore :=
  if cacheExists st name then st else st ++ [(name, [])]

/-- `Cache.put` on one entry list: replace the entry with a matching key, or
append a new entry. -/
def putEntry (es : List (List Char × List Char)) (k v : List Char) :
    List (List Char × List Char) :=
  if es.any (fun e => e.1 = k) then
    es.map (fun e => if e.1 = k then (k, v) else e)
  else es ++ [(k, v)]

/-- `Cache.put` addressed by cache name. -/
def cachePut (st : CacheStore) (name k v : List Char) : CacheStore :=
  st.map (fun c => if c.1 = name then (c.1, putEntry c.2 k v) else c)

/-- `Cache.addAll`: fetches every file of the batch and stores the batch
atomically; `none` when some fetch fails. The stored body is modelled by the
URL itself (its content is never examined by the operations in scope). -/
def cacheAddAll (fetchOk : List Char → Bool) (st : CacheStore)
    (name : List Char) (files : List (List Char)) : Option CacheStore :=
  if files.all fetchOk then
    some (files.foldl (fun st f => cachePut st name f f) st)
  else none

/-- The compiled-in `MANUAL_FILES` table (sw.js lines 23-44); unknown ids get
the empty list (`MANUAL_FILES[manualId] || []`). -/
def manualFiles (id : List Char) : List (List Char) :=
  if id = "HRN113-001".toList then
    ["./HRN113-001.html".toList,
     "./data/HRN113-001-search-index.json".toList,
     "./data/HRN113-001-toc.json".toList]
  else if id = "HRN113-002".toList then
    ["./HRN113-002.html".toList,
     "./data/HRN113-002-search-index.json".toList,
     "./data/HRN113-002-toc.json".toList]
  else if id = "HRN737-012".toList then
    ["./HRN737-012.html".toList,
     "./data/HRN737-012-search-index.json".toList,
     "./data/HRN737-012-toc.json".toList]
  else if id = "HRN737-018".toList then
    ["./HRN737-018.html".toList,
     "./data/HRN737-018-search-index.json".toList,
     "./data/HRN737-018-toc.json".toList]
  else []

/-- `cacheManual` (sw.js lines 192-228): open (create) the cache, add the
manual core files, add the provided page-image files when non-empty, then
write the metadata entry keyed `manual-<id>-metadata`. Any failed batch adds
nothing further and reports failure, but the cache created by `caches.open`
remains. The metadata body (a JSON record with id, timestamp, version and
file count) is modelled by the id, since no operation in scope reads it. -/
def cacheManual (fetchOk : List Char → Bool) (st : CacheStore)
    (id : List Char) (files : List (List Char)) : CacheStore × Bool :=
  let cacheName := manualPfx ++ id
  let st1 := cachesOpen st cacheName
  match cacheAddAll fetchOk st1 cacheName (manualFiles id) with
  | none => (st1, false)
  | some st2 =>
    if files.isEmpty then
      (cachePut st2 cacheName (cacheName ++ metadataSfx) id, true)
    else
      match cacheAddAll fetchOk st2 cacheName files with
      | none => (st2, false)
      | some st3 => (cachePut st3 cacheName (cacheName ++ metadataSfx) id, true)

/-- `removeManual` (sw.js lines 231-243): `caches.delete` of the whole
`manual-<id>` cache; the success flag reports whether the cache existed. -/
def swRemoveManual (st : CacheStore) (id : List Char) : CacheStore × Bool :=
  let name := manualPfx ++ id
  (st.filter (fun c => decide (c.1 ≠ name)), cacheExists st name)

/-- `getOfflineManuals` (sw.js lines 246-263): enumerate all cache names,
keep those tagged `manual-`, and report one record per such cache whose id is
the name with the leading `manual-` removed. A missing metadata entry is
defaulted to a zero-filled record, so the reported id list depends only on
the cache names. -/
def getOfflineManualIds (st : CacheStore) : List (List Char) :=
  ((st.map Prod.fst).filter (fun n => pfxOf manualPfx n)).map (fun n => n.drop 7)

/-- Whether a non-empty cache tagged with its metadata entry exists for the
given manual id: the right-hand side of the specification's offline-set
invariant (spec §3). -/
def wellFormedOffline (st : CacheStore) (id : List Char) : Bool :=
  st.any (fun c =>
    c.1 = manualPfx ++ id ∧ ¬c.2.isEmpty ∧
    c.2.any (fun e => e.1 = manualPfx ++ id ++ metadataSfx))

/-- A fetch oracle under which every fetch fails (the device is offline). -/
def fetchNone : List Char → Bool := fun _ => false

/-! ### Offline Coordinator (src/js/offline-manager.js)

The coordinator state carries the reconciled offline-manual set, the
pending-download set (JS `Set` objects, modelled as duplicate-free lists via
insert-if-absent), the persisted localStorage mirror (`offlineManuals` key,
with JSON serialization of a string array taken as faithful), and the sticky
worker-availability flags. -/

structure MgrState where
  offlineManuals : List String
  pendingDownloads : List String
  mirror : Option (List String)
  swFailed : Bool
  swRegistered : Bool
deriving DecidableEq

/-- `Set.prototype.add`. -/
def setInsert (s : List String) (x : String) : List String :=
  if s.contains x then s else s ++ [x]

/-- `Set.prototype.delete`. -/
def setErase (s : List String) (x : String) : List String :=
  s.filter (fun y => decide (y ≠ x))

/-- `new Set(list)`: keep the first occurrence of each element. -/
def setOfList (l : List String) : List String :=
  l.foldl setInsert []

/-- `saveOfflineManuals` (offline-manager.js lines 439-441): persist the
current offline set to the localStorage mirror. -/
def saveOfflineManuals (st : MgrState) : MgrState :=
  { st with mirror := some st.offlineManuals }

/-- The possible outcomes of the awaited `sendMessageToSW('cache-manual', …)`
call, as seen by `downloadManual`: a success response, a failure response
(rethrown as an error), a rejection before the message is posted (worker not
registered or not ready), or a response-timeout rejection after posting. -/
inductive SWOutcome where
  | success (fileCount : Nat)
  | failure (msg : String)
  | rejectNoSend (msg : String)
  | timeoutSent (msg : String)
deriving DecidableEq

/-- Whether the outcome is one of the failure modes. -/
def isFailureOutcome : SWOutcome → Bool
  | .success _ => false
  | _ => true

/-- Whether a `cache-manual` message reached the worker for this outcome. -/
def outcomeSent : SWOutcome → Bool
  | .rejectNoSend _ => false
  | _ => true

/-- The observable outcome of one `downloadManual` call: the state after the
call, the returned boolean, and whether a `cache-manual` worker message was
posted during the call. -/
structure DownloadResult where
  state : MgrState
  returned : Bool
  messageSent : Bool
deriving DecidableEq

/-- `OfflineManager.downloadManual` (offline-manager.js lines 131-198) against
a given worker outcome: fail fast when a download of the same id is pending or
when the worker is failed/unregistered; otherwise mark the id pending, send
`cache-manual`, and on success add the id to the offline set and persist the
mirror; the `finally` clause removes the id from the pending set on the
success path and on every failure path past the guards. UI display calls are
outside the model. -/
def downloadManual (st : MgrState) (id : String) (resp : SWOutcome) :
    DownloadResult :=
  if st.pendingDownloads.contains id then
    ⟨st, false, false⟩
  else if st.swFailed || !st.swRegistered then
    ⟨st, false, false⟩
  else
    let st1 := { st with pendingDownloads := setInsert st.pendingDownloads id }
    match resp with
    | .success _ =>
      let st2 := saveOfflineManuals
        { st1 with offlineManuals := setInsert st1.offlineManuals id }
      ⟨{ st2 with pendingDownloads := setErase st2.pendingDownloads id },
        true, true⟩
    | .failure _ =>
      ⟨{ st1 with pendingDownloads := setErase st1.pendingDownloads id },
        false, true⟩
    | .rejectNoSend _ =>
      ⟨{ st1 with pendingDownloads := setErase st1.pendingDownloads id },
        false, false⟩
    | .timeoutSent _ =>
      ⟨{ st1 with pendingDownloads := setErase st1.pendingDownloads id },
        false, true⟩

/-- `OfflineManager.loadOfflineManuals` (offline-manager.js lines 409-441):
adopt the localStorage mirror when present, then, when the worker answers the
`get-offline-manuals` query (`worker = some ids`), overwrite both the
in-memory set and the mirror with the worker's authoritative id list; without
worker connectivity (`worker = none`) the mirror value stands. `new Set`
deduplication is modelled by `setOfList`. -/
def loadOfflineManuals (st : MgrState) (worker : Option (List String)) :
    MgrState :=
  let st1 := match st.mirror with
    | some m => { st with offlineManuals := setOfList m }
    | none => st
  match worker with
  | some ids => saveOfflineManuals { st1 with offlineManuals := setOfList ids }
  | none => st1

/-! ### Worker message dispatch (src/sw.js lines 158-189) -/

/-- The dispatch outcome of the worker's `message` handler. -/
inductive SWAction where
  | cacheManualA
  | removeManualA
  | checkVersionA
  | getOfflineManualsA
  | skipWaitingA
  | unknownA (err : String)
deriving DecidableEq

/-- The `switch (action)` of the worker message handler: the accepted action
strings, with the fallthrough posting an unknown-action error. -/
def dispatchMessage (action : String) : SWAction :=
  if action = "cache-manual" then .cacheManualA
  else if action = "remove-manual" then .removeManualA
  else if action = "check-version" then .checkVersionA
  else if action = "get-offline-manuals" then .getOfflineManualsA
  else if action = "skipWaiting" then .skipWaitingA
  else .unknownA ("Unknown action: " ++ action)

/-- Whether the handler posts a reply on the request's reply channel when one
is provided: every action does except the fire-and-forget skip-waiting
branch, which only calls `self.skipWaiting()`. -/
def postsReply : SWAction → Bool
  | .skipWaitingA => false
  | _ => true

/-- The action string posted by `OfflineManager.performUpdate` to a waiting
worker (offline-manager.js line 610). -/
def performUpdateSkipAction : String := "skipWaiting"

theorem pfxOf_iff : ∀ (a b : List Char), pfxOf a b = true ↔ a <+: b
  | [], _ => by simp [pfxOf, List.nil_prefix]
  | _ :: _, [] => by simp [pfxOf, List.prefix_nil]
  | a :: as, b :: bs => by
    simp [pfxOf, pfxOf_iff as bs, List.cons_prefix_cons]

theorem containsSub_iff : ∀ (n h : List Char), containsSub n h = true ↔ n <:+: h
  | n, [] => by simp [containsSub, List.infix_nil, List.isEmpty_iff]
  | n, c :: t => by
    simp [containsSub, List.infix_cons_iff, pfxOf_iff, containsSub_iff n t]

/-- Claim C1: for every (query token, index token) pair considered by search,
the first applicable rule of the matching policy determines the weight and no
later rule applies: exact equality gives 10, index-starts-with-query (query
length ≥ 3) gives 6, query-starts-with-index (index length ≥ 3) gives 4,
both lengths ≥ 5 with index containing query and query length ≥ 0.6 times
index length gives 2, and otherwise the pair contributes nothing. -/
theorem search_matching_policy_first_rule_wins (qw iw : List Char) :
    scoreBonus qw iw = specMatchWeight qw iw := by
  unfold scoreBonus specMatchWeight
  simp only [pfxOf_iff, containsSub_iff]
  by_cases h1 : qw = iw
  · simp [h1]
  · rw [if_neg (fun h => h1 h.symm), if_neg h1]
    by_cases h2 : qw <+: iw ∧ 3 ≤ qw.length
    · rw [if_pos h2, if_pos h2]
    · rw [if_neg h2, if_neg h2]
      by_cases h3 : iw <+: qw ∧ 3 ≤ iw.length
      · rw [if_pos h3, if_pos h3]
      · rw [if_neg h3, if_neg h3]
        by_cases h4 : 5 ≤ qw.length ∧ 5 ≤ iw.length ∧ qw <:+: iw ∧
            3 * iw.length ≤ 5 * qw.length
        · rw [if_pos h4, if_pos ⟨⟨h4.1, h4.2.1⟩, h4.2.2⟩]
        · rw [if_neg h4, if_neg (fun h => h4 ⟨h.1.1, h.1.2, h.2⟩)]

/-- Claim C3 counterexample: on the specification's worked example the pair
("udstødningsrør", "udstødning") matches via the query-starts-with-index rule
with weight 4, not via the index-starts-with-query rule with weight 6, and
page 1 is not included in the returned results at all (the final score 4 falls
below the post-sort threshold 6). -/
theorem spec_example_excluded_counterexample :
    scoreBonus exQuery "udstødning".toList = some 4 ∧
    search exIdx exPages exQuery = [] := by
  refine ⟨by decide, ?_⟩
  have h1 : pageMatchesOf exIdx (danishTokenize exQuery) =
      [(1, { context := exCtx, score := 4,
             matchedWords := ["udstødning".toList], exactMatches := 0 })] := by
    decide
  have h2 : resultsOf (pageMatchesOf exIdx (danishTokenize exQuery)) exPages exQuery =
      [{ pageId := 1
         context := getSearchContext exCtx exQuery
         score := 4
         matchedWords := ["udstødning".toList]
         exactMatches := 0
         displayTitle := "Side ".toList ++ "1".toList ++ ['-'] ++ "02".toList
         finalScore := 4 }] := by
    rw [h1]
    simp [resultsOf, pmKeys, List.mergeSort_singleton, pmLookup, exPages]
  simp [search, searchSorted, h2, List.mergeSort_singleton]

/-- Claim C3 amended: on the worked example the pair matches via the
query-starts-with-index-token rule with weight 4, page 1 accumulates the
preliminary score 4 (so it passes the ≥ 4 retention filter), its final score
is 4, and the ≥ 6 post-sort filter excludes it, so the example query returns
no results. -/
theorem spec_example_weight_four_filtered_out :
    scoreBonus exQuery "udstødning".toList = some 4 ∧
    pageMatchesOf exIdx (danishTokenize exQuery) =
      [(1, { context := exCtx, score := 4,
             matchedWords := ["udstødning".toList], exactMatches := 0 })] ∧
    search exIdx exPages exQuery = [] := by
  refine ⟨by decide, by decide, ?_⟩
  have h1 : pageMatchesOf exIdx (danishTokenize exQuery) =
      [(1, { context := exCtx, score := 4,
             matchedWords := ["udstødning".toList], exactMatches := 0 })] := by
    decide
  have h2 : resultsOf (pageMatchesOf exIdx (danishTokenize exQuery)) exPages exQuery =
      [{ pageId := 1
         context := getSearchContext exCtx exQuery
         score := 4
         matchedWords := ["udstødning".toList]
         exactMatches := 0
         displayTitle := "Side ".toList ++ "1".toList ++ ['-'] ++ "02".toList
         finalScore := 4 }] := by
    rw [h1]
    simp [resultsOf, pmKeys, List.mergeSort_singleton, pmLookup, exPages]
  simp [search, searchSorted, h2, List.mergeSort_singleton]

/-- Every element of the retained result array carries a score of at least 4,
a final score composed as score plus five per exact match, and a page id that
indexes an existing page. -/
theorem resultsOf_spec (pm : List (Nat × PageMatch)) (pages : List Page)
    (query : List Char) :
    ∀ r ∈ resultsOf pm pages query,
      4 ≤ r.score ∧ r.finalScore = r.score + r.exactMatches * 5 ∧
      r.pageId < pages.length := by
  unfold resultsOf
  suffices h : ∀ (ks : List Nat) (acc : List SearchResult),
      (∀ r ∈ acc, 4 ≤ r.score ∧ r.finalScore = r.score + r.exactMatches * 5 ∧
        r.pageId < pages.length) →
      ∀ r ∈ ks.foldl (fun rs pid =>
        match pmLookup pm pid, pages[pid]? with
        | some m, some page =>
          if 4 ≤ m.score then
            rs ++ [{ pageId := pid
                     context := getSearchContext m.context query
                     score := m.score
                     matchedWords := m.matchedWords
                     exactMatches := m.exactMatches
                     displayTitle := "Side ".toList ++ page.chapter ++ ['-'] ++ page.page
                     finalScore := m.score + m.exactMatches * 5 }]
          else rs
        | _, _ => rs) acc,
        4 ≤ r.score ∧ r.finalScore = r.score + r.exactMatches * 5 ∧
        r.pageId < pages.length by
    intro r hr
    exact h (pmKeys pm) [] (by simp) r hr
  intro ks
  induction ks with
  | nil => intro acc hacc r hr; exact hacc r hr
  | cons k ks ih =>
    intro acc hacc r hr
    rw [List.foldl_cons] at hr
    refine ih _ ?_ r hr
    intro r' hr'
    split at hr'
    next m page hm hp =>
      split at hr'
      next hs =>
        rcases List.mem_append.mp hr' with hin | hnew
        · exact hacc r' hin
        · obtain ⟨hlt, -⟩ := List.getElem?_eq_some.mp hp
          rcases List.mem_singleton.mp hnew with rfl
          exact ⟨hs, rfl, hlt⟩
      next => exact hacc r' hr'
    next => exact hacc r' hr'

theorem byFinalScoreDesc_trans (a b c : SearchResult)
    (h1 : byFinalScoreDesc a b = true) (h2 : byFinalScoreDesc b c = true) :
    byFinalScoreDesc a c = true := by
  simp only [byFinalScoreDesc, Nat.ble_eq] at *
  omega

theorem byFinalScoreDesc_total (a b : SearchResult) :
    (byFinalScoreDesc a b || byFinalScoreDesc b a) = true := by
  rcases Nat.le_total a.finalScore b.finalScore with h | h <;>
    simp [byFinalScoreDesc, Nat.ble_eq, h]

/-- The filtered-and-truncated output is a sublist of the sorted intermediate
list. -/
theorem search_sublist_searchSorted (idx : SearchIndex) (pages : List Page)
    (query : List Char) :
    (search idx pages query).Sublist (searchSorted idx pages query) :=
  (List.take_sublist _ _).trans (List.filter_sublist _)

/-- Claim C2: every returned result sequence has been retained with weight sum
at least 4, carries final score = weight sum + 5 × exact-match count, is
sorted in non-increasing final-score order by a sort that is stable with
respect to the insertion order of the retained result array, keeps only final
scores of at least 6, and has at most 20 elements. Stability is expressed in
the standard form: any subsequence of the retained array already consistent
with the ordering survives as a subsequence of the sorted list. -/
theorem search_results_bounded_sorted_thresholded (idx : SearchIndex)
    (pages : List Page) (query : List Char) :
    (search idx pages query).length ≤ 20 ∧
    List.Pairwise (fun a b : SearchResult => b.finalScore ≤ a.finalScore)
      (search idx pages query) ∧
    (∀ r ∈ search idx pages query,
      6 ≤ r.finalScore ∧ 4 ≤ r.score ∧
      r.finalScore = r.score + r.exactMatches * 5) ∧
    (∀ c : List SearchResult,
      c.Sublist (resultsOf (pageMatchesOf idx (danishTokenize query)) pages query) →
      c.Pairwise (fun a b => byFinalScoreDesc a b = true) →
      c.Sublist (searchSorted idx pages query)) := by
  have hsorted : List.Pairwise (fun a b => byFinalScoreDesc a b = true)
      (searchSorted idx pages query) :=
    List.sorted_mergeSort byFinalScoreDesc_trans byFinalScoreDesc_total _
  refine ⟨?_, ?_, ?_, ?_⟩
  · exact List.length_take_le _ _
  · exact ((hsorted.sublist (search_sublist_searchSorted idx pages query)).imp
      (fun h => by simpa [byFinalScoreDesc, Nat.ble_eq] using h))
  · intro r hr
    have hf : r ∈ (searchSorted idx pages query).filter
        (fun r => 6 ≤ r.finalScore) := List.mem_of_mem_take hr
    obtain ⟨hmem, hsc⟩ := List.mem_filter.mp hf
    have hres : r ∈ resultsOf (pageMatchesOf idx (danishTokenize query))
        pages query := List.mem_mergeSort.mp hmem
    obtain ⟨h4, hcomp, -⟩ := resultsOf_spec _ pages query r hres
    exact ⟨by simpa using hsc, h4, hcomp⟩
  · intro c hsub hpair
    exact List.sublist_mergeSort byFinalScoreDesc_trans byFinalScoreDesc_total
      hpair hsub

/-- The concrete run of the search pipeline on `exactIdx`: the query "motor"
matches the index word "motor" exactly, giving page 0 weight 10, one exact
match, final score 15, and a single returned result. -/
theorem search_exact_eval :
    search exactIdx exactPages ("motor".toList) = [exactResult] := by
  have h1 : pageMatchesOf exactIdx (danishTokenize ("motor".toList)) =
      [(0, { context := "bag motoren".toList, score := 10,
             matchedWords := ["motor".toList], exactMatches := 1 })] := by
    decide
  have h2 : resultsOf (pageMatchesOf exactIdx (danishTokenize ("motor".toList)))
      exactPages ("motor".toList) = [exactResult] := by
    rw [h1]
    simp only [resultsOf, pmKeys, List.map_cons, List.map_nil,
      List.mergeSort_singleton, List.foldl_cons, List.foldl_nil]
    decide
  simp only [search, searchSorted, h2, List.mergeSort_singleton]
  decide

/-- Witness for claim C2, at the concrete exact-match run: the returned
result has final score 15 ≥ 6, score 10 ≥ 4, final score = 10 + 1·5, and the
empty subsequence witnesses the stability conjunct. -/
theorem search_results_bounded_sorted_thresholded_witness :
    (6 ≤ exactResult.finalScore ∧ 4 ≤ exactResult.score ∧
      exactResult.finalScore = exactResult.score + exactResult.exactMatches * 5) ∧
    List.Sublist [] (searchSorted exactIdx exactPages ("motor".toList)) := by
  obtain ⟨-, -, hmem, hstab⟩ :=
    search_results_bounded_sorted_thresholded exactIdx exactPages ("motor".toList)
  refine ⟨hmem exactResult ?_, hstab [] (List.nil_sublist _) List.Pairwise.nil⟩
  rw [search_exact_eval]
  exact List.mem_singleton.mpr rfl

/-- Claim C10: every result returned by search carries a page id that indexes
an existing entry of the loaded pages array; occurrences whose page id has no
loaded page are silently excluded. -/
theorem search_results_pageIds_in_bounds (idx : SearchIndex)
    (pages : List Page) (query : List Char) :
    (search idx pages query).all
      (fun r => decide (r.pageId < pages.length)) = true := by
  rw [List.all_eq_true]
  intro r hr
  have hf : r ∈ (searchSorted idx pages query).filter
      (fun r => 6 ≤ r.finalScore) := List.mem_of_mem_take hr
  have hres : r ∈ resultsOf (pageMatchesOf idx (danishTokenize query))
      pages query := List.mem_mergeSort.mp (List.mem_filter.mp hf).1
  exact decide_eq_true (resultsOf_spec _ pages query r hres).2.2

/-- The ellipsed slice of a non-empty text is non-empty, for every window
offset. -/
theorem sliceWithEllipses_ne_nil (text : List Char) (b : Nat)
    (hn : text ≠ []) : sliceWithEllipses text b ≠ [] := by
  unfold sliceWithEllipses
  have hlen : 0 < text.length := List.length_pos.mpr hn
  dsimp only
  split
  · simp
  · split
    · simp
    · next hstart =>
      have hb : b - 25 = 0 := by omega
      rw [hb]
      simp only [List.drop_zero, Nat.sub_zero, ne_eq, List.take_eq_nil_iff]
      push_neg
      exact ⟨by omega, hn⟩

/-- Claim C5: `getSearchContext` is a total function that always returns a
non-empty string, and on empty page text it returns the
"Ingen kontekst tilgængelig" sentinel. -/
theorem getSearchContext_total_nonempty (text query : List Char) :
    (getSearchContext text query).isEmpty = false ∧
    getSearchContext [] query = sentinel := by
  refine ⟨?_, rfl⟩
  unfold getSearchContext
  by_cases ht : text.isEmpty
  · rw [if_pos ht]; rfl
  · rw [if_neg ht]
    have hn : text ≠ [] := by
      intro h
      exact ht (by rw [h]; rfl)
    exact List.isEmpty_eq_false.mpr (sliceWithEllipses_ne_nil text _ hn)

/-- The coverage fold counts the query words contained in the window, with
multiplicity. -/
theorem windowScore_eq_countP (win : List Char) (words : List (List Char)) :
    windowScore win words = words.countP (fun w => containsSub w win) := by
  unfold windowScore
  suffices h : ∀ (ws : List (List Char)) (n : Nat),
      ws.foldl (fun sc w => if containsSub w win then sc + 1 else sc) n =
      n + ws.countP (fun w => containsSub w win) by
    simpa using h words 0
  intro ws
  induction ws with
  | nil => intro n; simp
  | cons w ws ih =>
    intro n
    rw [List.foldl_cons, ih, List.countP_cons]
    by_cases hw : containsSub w win
    · simp only [hw, if_true, List.countP_cons, hw]
      omega
    · simp only [hw, if_false, List.countP_cons, Bool.false_eq_true]
      omega

/-- Every token extracted by the run tokenizer consists solely of characters
of its class. -/
theorem tokAux_all (p : Char → Bool) :
    ∀ (s : List Char), ∀ t ∈ (tokAux p s).1, t.all p = true := by
  intro s
  induction s with
  | nil => intro t ht; simp [tokAux] at ht
  | cons c cs ih =>
    intro t ht
    simp only [tokAux] at ht
    rcases hr : tokAux p cs with ⟨toks, flag⟩
    have ih' : ∀ t ∈ toks, t.all p = true := by
      intro t htt
      exact ih t (by rw [hr]; exact htt)
    rw [hr] at ht
    by_cases hc : p c
    · rw [if_pos hc] at ht
      cases flag with
      | false =>
        cases toks with
        | nil =>
          rcases List.mem_singleton.mp ht with rfl
          simp [hc]
        | cons t0 ts =>
          rcases List.mem_cons.mp ht with rfl | hmem
          · simp [hc]
          · exact ih' t hmem
      | true =>
        cases toks with
        | nil =>
          rcases List.mem_singleton.mp ht with rfl
          simp [hc]
        | cons t0 ts =>
          rcases List.mem_cons.mp ht with rfl | hmem
          · have h0 : t0.all p = true := ih' t0 (List.mem_cons_self t0 ts)
            simp [hc, h0]
          · exact ih' t (List.mem_cons_of_mem t0 hmem)
    · rw [if_neg hc] at ht
      exact ih' t ht

/-- Claim C4 counterexample: the context extractor does not use the search
engine's letter-class tokenizer — on the query "sø" it produces the token "s"
where the search tokenizer produces "sø" — and its window coverage counts
query tokens with multiplicity, not distinctly: on the query "abc abc" a
window containing "abc" scores 2 although only 1 distinct token occurs. -/
theorem context_tokenizer_differs_counterexample :
    contextTokenize ("sø".toList) = [['s']] ∧
    danishTokenize ("sø".toList) = [['s', 'ø']] ∧
    windowScore ("abc".toList) (contextTokenize ("abc abc".toList)) = 2 ∧
    ((contextTokenize ("abc abc".toList)).dedup.filter
      (fun w => containsSub w ("abc".toList))).length = 1 := by
  refine ⟨by decide, by decide, by decide, by decide⟩

/-- Claim C4 amended: the context extractor tokenizes the lowercased query
with the ASCII word-character pattern (letters, digits and underscore — a
class that excludes æ, ø and å, unlike the search engine's tokenizer), and a
window's coverage score counts the query tokens, with multiplicity, that
occur as substrings of the window. -/
theorem context_coverage_counts_word_char_tokens (query win : List Char) :
    windowScore win (contextTokenize query) =
      (contextTokenize query).countP (fun w => containsSub w win) ∧
    (contextTokenize query).all (fun t => t.all isWordChar) = true := by
  refine ⟨windowScore_eq_countP win _, ?_⟩
  rw [List.all_eq_true]
  intro t ht
  exact tokAux_all isWordChar _ t ht

theorem strContains_iff (s : List String) (x : String) :
    s.contains x = true ↔ x ∈ s := by
  rw [List.contains_eq_any_beq, List.any_eq_true]
  constructor
  · rintro ⟨y, hy, hb⟩
    exact (eq_of_beq hb) ▸ hy
  · intro hx
    exact ⟨x, hx, by simp⟩

theorem setErase_not_contains (s : List String) (x : String) :
    (setErase s x).contains x = false := by
  simp [setErase, List.contains_eq_any_beq]

/-- Claim C6 counterexample: starting from empty durable storage, a
`cache-manual` request for HRN113-001 under an offline fetch oracle fails,
yet leaves behind the empty cache created by `caches.open`; the subsequent
`get-offline-manuals` report then lists HRN113-001 as offline although no
non-empty, metadata-tagged cache exists for it. -/
theorem failed_cacheManual_reported_offline_counterexample :
    (cacheManual fetchNone [] ("HRN113-001".toList) []).2 = false ∧
    (cacheManual fetchNone [] ("HRN113-001".toList) []).1 =
      [("manual-HRN113-001".toList, [])] ∧
    getOfflineManualIds (cacheManual fetchNone [] ("HRN113-001".toList) []).1 =
      ["HRN113-001".toList] ∧
    wellFormedOffline (cacheManual fetchNone [] ("HRN113-001".toList) []).1
      ("HRN113-001".toList) = false := by
  refine ⟨by decide, by decide, by decide, by decide⟩

/-- Claim C6 amended: a manual identifier is reported as a member of the
offline set by `get-offline-manuals` if and only if a cache named
`manual-<id>` exists in durable storage, whether or not that cache is
non-empty or carries its metadata entry (missing metadata is zero-filled in
the report); in particular a partway-failed cache-manual request can leave an
empty manual cache that is subsequently reported as offline. -/
theorem offline_report_iff_cache_exists (st : CacheStore) (id : List Char) :
    id ∈ getOfflineManualIds st ↔ cacheExists st (manualPfx ++ id) = true := by
  unfold getOfflineManualIds cacheExists
  rw [List.any_eq_true]
  constructor
  · intro hmem
    obtain ⟨n, hn, hdrop⟩ := List.mem_map.mp hmem
    obtain ⟨hnin, hpfx⟩ := List.mem_filter.mp hn
    obtain ⟨tl, rfl⟩ := (pfxOf_iff _ _).mp hpfx
    obtain ⟨c, hc, hceq⟩ := List.mem_map.mp hnin
    refine ⟨c, hc, ?_⟩
    have h7 : manualPfx.length = 7 := rfl
    rw [← h7, List.drop_left] at hdrop
    rw [decide_eq_true_eq, hceq, hdrop]
  · rintro ⟨c, hc, hceq⟩
    rw [decide_eq_true_eq] at hceq
    refine List.mem_map.mpr ⟨manualPfx ++ id, List.mem_filter.mpr ⟨?_, ?_⟩, ?_⟩
    · exact List.mem_map.mpr ⟨c, hc, hceq⟩
    · exact (pfxOf_iff _ _).mpr ⟨id, rfl⟩
    · have h7 : manualPfx.length = 7 := rfl
      rw [← h7, List.drop_left]

/-- Claim C7: `downloadManual` fails fast, returning false with the state
unchanged and no worker message, when a download of the same id is already
pending or when no working worker connection exists; on any failure outcome
it leaves the offline set and its persisted mirror unchanged and returns
false; and on every path past the fail-fast guards the id is absent from the
pending set when the call exits. -/
theorem downloadManual_failure_semantics (st : MgrState) (id : String)
    (resp : SWOutcome) :
    (st.pendingDownloads.contains id = true →
      downloadManual st id resp = ⟨st, false, false⟩) ∧
    (st.pendingDownloads.contains id = false →
      (st.swFailed || !st.swRegistered) = true →
      downloadManual st id resp = ⟨st, false, false⟩) ∧
    (isFailureOutcome resp = true →
      (downloadManual st id resp).state.offlineManuals = st.offlineManuals ∧
      (downloadManual st id resp).state.mirror = st.mirror ∧
      (downloadManual st id resp).returned = false) ∧
    (st.pendingDownloads.contains id = false →
      st.swFailed = false → st.swRegistered = true →
      (downloadManual st id resp).state.pendingDownloads.contains id = false) := by
  refine ⟨?_, ?_, ?_, ?_⟩
  · intro hpend
    unfold downloadManual
    rw [if_pos hpend]
  · intro hpend hsw
    unfold downloadManual
    rw [if_neg (fun h => by rw [h] at hpend; exact Bool.noConfusion hpend),
      if_pos hsw]
  · intro hfail
    unfold downloadManual
    by_cases hpend : st.pendingDownloads.contains id = true
    · rw [if_pos hpend]
      exact ⟨rfl, rfl, rfl⟩
    · rw [if_neg hpend]
      by_cases hsw : (st.swFailed || !st.swRegistered) = true
      · rw [if_pos hsw]
        exact ⟨rfl, rfl, rfl⟩
      · rw [if_neg hsw]
        cases resp with
        | success fc => simp [isFailureOutcome] at hfail
        | failure m => exact ⟨rfl, rfl, rfl⟩
        | rejectNoSend m => exact ⟨rfl, rfl, rfl⟩
        | timeoutSent m => exact ⟨rfl, rfl, rfl⟩
  · intro hpend hfailed hreg
    unfold downloadManual
    rw [if_neg (fun h => by rw [h] at hpend; exact Bool.noConfusion hpend),
      if_neg (by simp [hfailed, hreg])]
    cases resp with
    | success fc => exact setErase_not_contains _ id
    | failure m => exact setErase_not_contains _ id
    | rejectNoSend m => exact setErase_not_contains _ id
    | timeoutSent m => exact setErase_not_contains _ id

/-- Witness for claim C7 at concrete states: a call with "a" already pending
fails fast and unchanged; with a failed worker it fails fast and unchanged;
a failure response leaves offline set and mirror unchanged and returns
false; after a successful non-guarded call the pending set no longer holds
the id. -/
theorem downloadManual_failure_semantics_witness :
    downloadManual ⟨["b"], ["a"], none, false, true⟩ "a" (.success 3) =
      ⟨⟨["b"], ["a"], none, false, true⟩, false, false⟩ ∧
    downloadManual ⟨["b"], [], none, true, true⟩ "a" (.success 3) =
      ⟨⟨["b"], [], none, true, true⟩, false, false⟩ ∧
    ((downloadManual ⟨["b"], [], some ["b"], false, true⟩ "a"
        (.failure "boom")).state.offlineManuals = ["b"] ∧
      (downloadManual ⟨["b"], [], some ["b"], false, true⟩ "a"
        (.failure "boom")).state.mirror = some ["b"] ∧
      (downloadManual ⟨["b"], [], some ["b"], false, true⟩ "a"
        (.failure "boom")).returned = false) ∧
    (downloadManual ⟨["b"], [], some ["b"], false, true⟩ "a"
      (.success 3)).state.pendingDownloads.contains "a" = false := by
  refine ⟨?_, ?_, ?_, ?_⟩
  · exact (downloadManual_failure_semantics ⟨["b"], ["a"], none, false, true⟩
      "a" (.success 3)).1 (by decide)
  · exact (downloadManual_failure_semantics ⟨["b"], [], none, true, true⟩
      "a" (.success 3)).2.1 (by decide) (by decide)
  · exact (downloadManual_failure_semantics ⟨["b"], [], some ["b"], false, true⟩
      "a" (.failure "boom")).2.2.1 (by decide)
  · exact (downloadManual_failure_semantics ⟨["b"], [], some ["b"], false, true⟩
      "a" (.success 3)).2.2.2 (by decide) (by decide) (by decide)

theorem foldl_setInsert_eq_append :
    ∀ (l acc : List String), (∀ x ∈ l, x ∉ acc) → l.Nodup →
      l.foldl setInsert acc = acc ++ l := by
  intro l
  induction l with
  | nil => intro acc _ _; simp
  | cons x xs ih =>
    intro acc hdis hnd
    rw [List.foldl_cons]
    have hxa : x ∉ acc := hdis x (List.mem_cons_self x xs)
    have hins : setInsert acc x = acc ++ [x] := by
      unfold setInsert
      rw [if_neg (fun h => hxa ((strContains_iff _ _).mp h))]
    rw [hins, ih (acc ++ [x]) ?_ (List.Nodup.of_cons hnd)]
    · simp
    · intro y hy
      rw [List.mem_append]
      rintro (hya | hyx)
      · exact hdis y (List.mem_cons_of_mem x hy) hya
      · rcases List.mem_singleton.mp hyx with rfl
        exact (List.nodup_cons.mp hnd).1 hy

theorem setOfList_eq_self_of_nodup (l : List String) (h : l.Nodup) :
    setOfList l = l := by
  unfold setOfList
  rw [foldl_setInsert_eq_append l [] (by simp) h]
  simp

/-- Claim C8: persisting the offline set and then reloading without worker
connectivity restores the same set from the mirror (literally, when the set
representation is duplicate-free, as every state reachable through
insert-if-absent is); reloading with worker connectivity overwrites both the
in-memory set and the mirror with the worker's authoritative list, regardless
of what the mirror previously held. -/
theorem loadOfflineManuals_roundtrip_authoritative (st : MgrState)
    (ids : List String) :
    (loadOfflineManuals (saveOfflineManuals st) none).offlineManuals =
      setOfList st.offlineManuals ∧
    (st.offlineManuals.Nodup →
      (loadOfflineManuals (saveOfflineManuals st) none).offlineManuals =
        st.offlineManuals) ∧
    (loadOfflineManuals st (some ids)).offlineManuals = setOfList ids ∧
    (loadOfflineManuals st (some ids)).mirror = some (setOfList ids) := by
  refine ⟨rfl, ?_, ?_, ?_⟩
  · intro hnd
    show setOfList st.offlineManuals = st.offlineManuals
    exact setOfList_eq_self_of_nodup _ hnd
  · rcases hm : st.mirror with - | m
    · simp [loadOfflineManuals, saveOfflineManuals, hm]
    · simp [loadOfflineManuals, saveOfflineManuals, hm]
  · rcases hm : st.mirror with - | m
    · simp [loadOfflineManuals, saveOfflineManuals, hm]
    · simp [loadOfflineManuals, saveOfflineManuals, hm]

/-- Witness for claim C8 at a concrete state: the duplicate-free offline set
["x", "y"] survives a persist-then-reload round trip without connectivity,
and reloading with the worker answering ["z", "z", "w"] overwrites set and
mirror with the deduplicated authoritative list. -/
theorem loadOfflineManuals_roundtrip_authoritative_witness :
    (loadOfflineManuals
        (saveOfflineManuals ⟨["x", "y"], [], some ["old"], false, true⟩)
        none).offlineManuals = ["x", "y"] ∧
    (loadOfflineManuals ⟨["x", "y"], [], some ["old"], false, true⟩
        (some ["z", "z", "w"])).mirror = some ["z", "w"] := by
  constructor
  · exact (loadOfflineManuals_roundtrip_authoritative
      ⟨["x", "y"], [], some ["old"], false, true⟩ []).2.1 (by decide)
  · have h := (loadOfflineManuals_roundtrip_authoritative
      ⟨["x", "y"], [], some ["old"], false, true⟩ ["z", "z", "w"]).2.2.2
    rw [h]
    decide

/-- Claim C9 counterexample: a request whose action field is "skip-waiting"
is answered by the worker's default branch with an unknown-action error; it is
not dispatched to the forced-activation branch. -/
theorem skip_waiting_hyphen_unknown_counterexample :
    dispatchMessage "skip-waiting" =
      SWAction.unknownA "Unknown action: skip-waiting" ∧
    dispatchMessage "skip-waiting" ≠ SWAction.skipWaitingA := by
  refine ⟨by decide, by decide⟩

/-- Claim C9 amended: the action name the worker accepts for forced
activation is "skipWaiting" (camel case, sw.js line 178), not "skip-waiting";
the branch is fire-and-forget (no reply is posted), and the foreground's
`performUpdate` posts exactly that action to a waiting worker. -/
theorem skipWaiting_camelCase_accepted :
    dispatchMessage "skipWaiting" = SWAction.skipWaitingA ∧
    performUpdateSkipAction = "skipWaiting" ∧
    dispatchMessage performUpdateSkipAction = SWAction.skipWaitingA ∧
    postsReply (dispatchMessage performUpdateSkipAction) = false := by
  refine ⟨by decide, rfl, by decide, by decide⟩
